import Mathlib

/-!
Verification of the qrng-hackaton_2025 sampling-and-selection core.

The development shallowly embeds the two source files:
* `circuit.py` — `build_qrng`, which derives the qubit width from the
  requested outcome count;
* `runner.py` — `run_qrng`, which interprets measurement counts, computes the
  normalized spread metric, filters in-range outcomes and resolves ties via a
  single-shot re-execution.

The quantum backend itself is abstracted as a function from an execution index
to the counts mapping it returns (call `0` is the main batch, call `1` the
optional tie-break re-run), matching the design's BackendExecutor boundary.
Python dictionaries are modelled as insertion-ordered association lists, and
floating-point arithmetic is idealised as exact rational/real arithmetic.
-/

namespace Qrng

/-- Parse a string of binary digits as a big-endian natural number, modelling
Python `int(bitstring, 2)` as applied in `runner.py` to measurement keys:
the empty string or any character other than `0`/`1` is a `ValueError`,
modelled as `none`. -/
def parseBin2 (s : String) : Option Nat :=
  if s.isEmpty then none
  else
    s.data.foldl
      (fun acc c =>
        match acc with
        | none => none
        | some a =>
          if c = '0' then some (2 * a)
          else if c = '1' then some (2 * a + 1)
          else none)
      (some 0)

/-- Assignment `d[k] = v` on an insertion-ordered association list, modelling
Python dict semantics: an existing key keeps its position and receives the new
value, a fresh key is appended at the end. -/
def dictInsert (k v : Nat) : List (Nat × Nat) → List (Nat × Nat)
  | [] => [(k, v)]
  | p :: rest => if p.1 = k then (k, v) :: rest else p :: dictInsert k v rest

/-- The loop of the comprehension
`{int(bitstring, 2): occurrence for bitstring, occurrence in counts_binary.items()}`
(runner.py line 96), threading the dictionary built so far; a key that fails
to parse aborts the whole conversion (Python raises). -/
def counts_int_fold (d : List (Nat × Nat)) : List (String × Nat) → Option (List (Nat × Nat))
  | [] => some d
  | p :: rest =>
    match parseBin2 p.1 with
    | none => none
    | some k => counts_int_fold (dictInsert k p.2 d) rest

/-- The integer-keyed counts dictionary `counts_int` derived from the binary
counts returned by the backend (runner.py line 96). -/
def counts_int_of (counts_binary : List (String × Nat)) : Option (List (Nat × Nat)) :=
  counts_int_fold [] counts_binary

/-- The integer values of all the bitstring keys, in order; `none` when any key
fails to parse.  Used to phrase hypotheses about well-formed backend output. -/
def parse_keys : List (String × Nat) → Option (List Nat)
  | [] => some []
  | p :: rest =>
    match parseBin2 p.1, parse_keys rest with
    | some k, some ks => some (k :: ks)
    | _, _ => none

/-- Error kinds of the core, named after the specification's error taxonomy
(§7) and mapped to the uncaught Python exceptions at the corresponding source
sites:
* `invalidArgument` — the `ValueError` raised by `math.log2` on a
  non-positive argument (circuit.py line 16);
* `malformedBitstring` — the `ValueError` raised by `int(s, 2)` on a
  non-binary key (runner.py lines 96 and 130);
* `noValidOutcomes` — the `ValueError` raised by `max()` on the empty
  sequence of in-range occurrences (runner.py line 115);
* `emptyRerunResult` — the `IndexError` raised by `list(count.keys())[0]`
  when the tie-break run returns an empty mapping (runner.py line 129). -/
inductive QrngError where
  | invalidArgument
  | malformedBitstring
  | noValidOutcomes
  | emptyRerunResult
deriving DecidableEq

/-- Observable outcome of one orchestration call: the selected random number
and how many times the backend executor was invoked (1 for the main batch
alone, 2 when the single-shot tie-break re-run happened). -/
structure SelectionOutcome where
  randomNum : Nat
  execCalls : Nat
deriving DecidableEq

deriving instance DecidableEq for Except

/-- circuit.py `build_qrng`: computes
`num_qubits = math.ceil(math.log2(num_outcomes))`, modelled exactly over the
reals as `Nat.clog 2` (the least `k` with `num_outcomes ≤ 2 ^ k`); `math.log2`
raises `ValueError` for a non-positive argument.  The circuit object itself
(Hadamards plus full measurement) carries no information beyond the qubit
count at this core's boundary, so the model returns the qubit count. -/
def build_qrng (num_outcomes : Int) : Except QrngError Nat :=
  if num_outcomes ≤ 0 then .error .invalidArgument
  else .ok (Nat.clog 2 num_outcomes.toNat)

/-- The sub-dictionary `valid_counts` of `counts_int` whose (integer) keys
lie in the requested range, runner.py line 107:
`{outcome: occurrence for outcome, occurrence in counts_int.items() if outcome < num_outcomes}`. -/
def valid_counts_of (num_outcomes : Int) (counts_int : List (Nat × Nat)) : List (Nat × Nat) :=
  counts_int.filter (fun p => (p.1 : Int) < num_outcomes)

/-- Selection logic of runner.py lines 107-133: filter to the valid range,
take the maximum occurrence, collect the indices achieving it
(`max_indices`), and either return the outcome at the first such index
directly, or — on a tie — parse the first key of the single-shot re-run's
counts mapping (`list(count.keys())[0]`, then `int(·, 2)`). -/
def select_from (num_outcomes : Int) (counts_int : List (Nat × Nat))
    (rerun_counts : List (String × Nat)) : Except QrngError SelectionOutcome :=
  let valid_counts := valid_counts_of num_outcomes counts_int
  let valid_outcomes := valid_counts.map (·.1)
  let valid_occurrences := valid_counts.map (·.2)
  match valid_occurrences.max? with
  | none => .error .noValidOutcomes
  | some max_occurrence =>
    let max_indices := (valid_occurrences.enum.filter (fun q => q.2 = max_occurrence)).map Prod.fst
    if 1 < max_indices.length then
      match rerun_counts.head? with
      | none => .error .emptyRerunResult
      | some p =>
        match parseBin2 p.1 with
        | none => .error .malformedBitstring
        | some rn => .ok ⟨rn, 2⟩
    else
      .ok ⟨valid_outcomes.getD (max_indices.headD 0) 0, 1⟩

/-- runner.py `run_qrng`, restricted to its decision logic: build the circuit
spec, run the main batch (`exec 0`), convert the binary counts to integers,
and select the result, consulting the tie-break execution (`exec 1`) only on
the tie path.  The executor is the abstract backend capability; `execCalls`
in the result records how many times it was consulted. -/
def run_qrng (num_outcomes : Int) (exec : Nat → List (String × Nat)) :
    Except QrngError SelectionOutcome :=
  match build_qrng num_outcomes with
  | .error e => .error e
  | .ok _ =>
    match counts_int_of (exec 0) with
    | none => .error .malformedBitstring
    | some counts_int => select_from num_outcomes counts_int (exec 1)

/-- An executor returning `main` for the principal batch and `rerun` for every
later (tie-break) call. -/
def mkExec (main rerun : List (String × Nat)) : Nat → List (String × Nat) :=
  fun i => if i = 0 then main else rerun

/-- Arithmetic mean of a list of rationals, `np.mean` idealised over ℚ
(the empty list gives `0/0 = 0` under the division-by-zero convention,
standing for numpy's NaN). -/
def mean (l : List ℚ) : ℚ := l.sum / l.length

/-- Population variance, the square of `np.std`: the mean of the squared
deviations from the mean. -/
def popVariance (l : List ℚ) : ℚ := mean (l.map (fun x => (x - mean l) ^ 2))

/-- Python `round(x, 9)` idealised over ℝ: round to 9 decimal places.
(Python rounds half-to-even; the idealisation rounds half-up, which agrees
except on exact midpoints of the 9th decimal.) -/
noncomputable def round9 (x : ℝ) : ℝ := (round (x * 10 ^ 9) : ℤ) / 10 ^ 9

/-- runner.py lines 101-104: the normalized standard deviation
`round(np.std(occurrences) / np.mean(occurrences), 9)` of a list of
occurrence counts, idealised over exact reals (`np.std` is the population
standard deviation).  Division by a zero mean follows the `ℝ` convention
`x / 0 = 0`, standing for the NaN the float code produces. -/
noncomputable def std_norm_of (occurrences : List Nat) : ℝ :=
  let occQ : List ℚ := occurrences.map (fun a : ℕ => (a : ℚ))
  round9 (Real.sqrt (popVariance occQ) / (mean occQ : ℝ))

/-- The spread computation as run_qrng performs it (runner.py lines 96-104):
over the values of `counts_int`, i.e. the occurrence counts of all observed
outcomes, before any range filtering. -/
noncomputable def run_std_norm (counts_binary : List (String × Nat)) : Option ℝ :=
  (counts_int_of counts_binary).map (fun ci => std_norm_of (ci.map (·.2)))

/-- Population standard deviation, written as the specification states it:
the square root of the sum of squared deviations over the number of
outcomes. -/
noncomputable def population_stddev (l : List ℚ) : ℝ :=
  Real.sqrt (((l.map (fun x => (x - mean l) ^ 2)).sum : ℚ) / (l.length : ℚ))

/-- Modelled from the spec's words (§3 Statistics): population standard
deviation of the occurrence counts of all observed outcomes divided by their
mean, rounded to 9 decimal places. -/
noncomputable def spec_normalized_spread (occurrences : List Nat) : ℝ :=
  let occQ : List ℚ := occurrences.map (fun a : ℕ => (a : ℚ))
  round9 (population_stddev occQ / (mean occQ : ℝ))

/-- Concrete integer counts over all eight 3-bit outcomes, used to exhibit the
range restriction at `num_outcomes = 5`. -/
def observed_eight : List (Nat × Nat) :=
  [(0, 12), (1, 13), (2, 11), (3, 14), (4, 10), (5, 20), (6, 9), (7, 21)]

lemma head?_filter_eq_find? (P : α → Bool) :
    ∀ l : List α, (l.filter P).head? = l.find? P := by
  intro l
  induction l with
  | nil => rfl
  | cons a t ih =>
    by_cases h : P a
    · rw [List.filter_cons_of_pos h, List.find?_cons_of_pos _ h]
      rfl
    · rw [List.filter_cons_of_neg h, List.find?_cons_of_neg _ h]
      exact ih

lemma headD_of_head? (l : List Nat) (i d : Nat) (h : l.head? = some i) :
    l.headD d = i := by
  cases l with
  | nil => cases h
  | cons a t =>
    simp only [List.head?_cons, Option.some.injEq] at h
    simpa using h

/-- The number of `max_indices` entries equals the number of valid outcomes
achieving the maximum: enumerating does not change how many elements satisfy
a predicate on the occurrence value. -/
lemma max_indices_count (M : Nat) :
    ∀ (vc : List (Nat × Nat)) (k : Nat),
      (((List.enumFrom k (vc.map (·.2))).filter (fun q => q.2 = M)).map Prod.fst).length
        = (vc.filter (fun q => q.2 = M)).length := by
  intro vc
  induction vc with
  | nil => intro k; rfl
  | cons a t ih =>
    intro k
    by_cases h : a.2 = M
    · simp [List.enumFrom, List.filter_cons, h, ih]
    · simp [List.enumFrom, List.filter_cons, h, ih]

/-- The first `max_indices` entry points at the first valid outcome achieving
the maximum: from index `k`, the head of the filtered enumeration is `k + i`
where `i` locates the element `find?` returns. -/
lemma max_indices_head (P : Nat → Bool) :
    ∀ (vc : List (Nat × Nat)) (k : Nat) (p : Nat × Nat),
      vc.find? (fun q => P q.2) = some p →
      ∃ i, (((List.enumFrom k (vc.map (·.2))).filter (fun q => P q.2)).map Prod.fst).head?
              = some (k + i)
        ∧ (vc.map (·.1)).getD i 0 = p.1 := by
  intro vc
  induction vc with
  | nil =>
    intro k p h
    cases h
  | cons a t ih =>
    intro k p h
    by_cases hPa : P a.2
    · rw [List.find?_cons_of_pos (p := fun q => P q.2) t hPa] at h
      obtain rfl : a = p := Option.some.inj h
      refine ⟨0, ?_, rfl⟩
      simp [List.enumFrom, List.filter_cons, hPa]
    · rw [List.find?_cons_of_neg (p := fun q => P q.2) t hPa] at h
      obtain ⟨i, hh, hg⟩ := ih (k + 1) p h
      refine ⟨i + 1, ?_, ?_⟩
      · simp only [List.map_cons, List.enumFrom, List.filter_cons]
        rw [if_neg (by simpa using hPa), hh]
        congr 1
        omega
      · simpa using hg

lemma clog_two_five : Nat.clog 2 5 = 3 := by
  have h1 : Nat.clog 2 5 ≤ 3 := (Nat.le_pow_iff_clog_le one_lt_two).mp (by norm_num)
  have h2 : 2 < Nat.clog 2 5 := (Nat.pow_lt_iff_lt_clog one_lt_two).mp (by norm_num)
  omega

/-- C1: for every `numOutcomes ≥ 1`, `build_qrng` returns `numQubits` equal to
`⌈log₂ numOutcomes⌉`; in particular `numOutcomes = 1` yields 0 qubits and
`numOutcomes = 5` yields 3 qubits. -/
theorem build_qrng_computes_ceil_log2 :
    (∀ n : Int, 1 ≤ n → ∀ q : Nat, build_qrng n = .ok q →
        (q : ℤ) = ⌈Real.logb 2 (n : ℝ)⌉)
    ∧ build_qrng 1 = .ok 0 ∧ build_qrng 5 = .ok 3 := by
  refine ⟨?_, ?_, ?_⟩
  · intro n hn q hq
    have hn0 : ¬ n ≤ 0 := by omega
    rw [build_qrng, if_neg hn0] at hq
    obtain rfl : Nat.clog 2 n.toNat = q := by
      exact Except.ok.inj hq
    have h0 : (0 : ℝ) ≤ (n : ℝ) := by exact_mod_cast (by omega : (0 : ℤ) ≤ n)
    have hcast : ((n.toNat : ℕ) : ℝ) = (n : ℝ) := by
      exact_mod_cast congrArg (fun z : ℤ => (z : ℝ)) (Int.toNat_of_nonneg (by omega))
    have h1 : ⌈Real.logb 2 (n : ℝ)⌉ = Int.clog 2 (n : ℝ) := by
      have h := Real.ceil_logb_natCast (b := 2) (r := (n : ℝ)) h0
      simpa using h
    rw [h1, ← hcast, Int.clog_natCast]
  · norm_num [build_qrng, Nat.clog_one_right]
  · rw [build_qrng, if_neg (by norm_num : ¬ (5 : ℤ) ≤ 0)]
    exact congrArg Except.ok clog_two_five

/-- Witness for C1 at `numOutcomes = 5`: the hypotheses hold there and the
returned qubit count 3 equals `⌈log₂ 5⌉`. -/
theorem build_qrng_computes_ceil_log2_witness :
    (1 : ℤ) ≤ 5 ∧ ((3 : ℕ) : ℤ) = ⌈Real.logb 2 ((5 : ℤ) : ℝ)⌉ :=
  ⟨by norm_num,
    build_qrng_computes_ceil_log2.1 5 (by norm_num) 3
      (by rw [build_qrng, if_neg (by norm_num : ¬ (5 : ℤ) ≤ 0)]
          exact congrArg Except.ok clog_two_five)⟩

/-- C7: `build_qrng` fails with `InvalidArgument` exactly when
`numOutcomes ≤ 0`, and succeeds for every `numOutcomes ≥ 1`. -/
theorem build_qrng_invalidArgument_iff_nonpositive :
    ∀ n : Int, (build_qrng n = .error .invalidArgument ↔ n ≤ 0)
      ∧ ((∃ q, build_qrng n = .ok q) ↔ 1 ≤ n) := by
  intro n
  rw [build_qrng]
  by_cases hn : n ≤ 0
  · rw [if_pos hn]
    constructor
    · exact ⟨fun _ => hn, fun _ => rfl⟩
    · constructor
      · rintro ⟨q, hq⟩
        cases hq
      · intro h
        omega
  · rw [if_neg hn]
    constructor
    · constructor
      · intro h
        cases h
      · intro h
        exact absurd h hn
    · exact ⟨fun _ => by omega, fun _ => ⟨_, rfl⟩⟩

/-- C4: the valid subset is exactly the restriction of the integer counts to
keys strictly below `numOutcomes`; for `numOutcomes = 5` the measured
outcomes 5, 6 and 7 are excluded even when observed. -/
theorem valid_counts_is_range_restriction :
    (∀ (n : Int) (ci : List (Nat × Nat)) (p : Nat × Nat),
        p ∈ valid_counts_of n ci ↔ p ∈ ci ∧ (p.1 : Int) < n)
    ∧ (valid_counts_of 5 observed_eight).map (·.1) = [0, 1, 2, 3, 4] := by
  constructor
  · intro n ci p
    simp [valid_counts_of, List.mem_filter]
  · decide

/-- When exactly one valid outcome achieves the maximum occurrence count, the
selection returns that outcome's key directly, with a single executor call. -/
lemma select_from_unique (n : Int) (ci : List (Nat × Nat)) (rr : List (String × Nat))
    (M : Nat) (p : Nat × Nat)
    (hmax : ((valid_counts_of n ci).map (·.2)).max? = some M)
    (hfilter : (valid_counts_of n ci).filter (fun q => q.2 = M) = [p]) :
    select_from n ci rr = .ok ⟨p.1, 1⟩ := by
  have hfind : (valid_counts_of n ci).find? (fun q => q.2 = M) = some p := by
    rw [← head?_filter_eq_find?, hfilter]
    rfl
  obtain ⟨i, hh, hg⟩ :=
    max_indices_head (fun v => decide (v = M)) (valid_counts_of n ci) 0 p hfind
  rw [Nat.zero_add] at hh
  have henum : ((valid_counts_of n ci).map (·.2)).enum
      = List.enumFrom 0 ((valid_counts_of n ci).map (·.2)) := rfl
  have hlen :
      (((List.enumFrom 0 ((valid_counts_of n ci).map (·.2))).filter
          (fun q => q.2 = M)).map Prod.fst).length = 1 := by
    rw [max_indices_count M (valid_counts_of n ci) 0, hfilter]
    rfl
  simp only [select_from, hmax, henum]
  rw [if_neg (by rw [hlen]; norm_num)]
  rw [headD_of_head? _ i 0 hh, hg]

/-- When more than one valid outcome achieves the maximum occurrence count,
the selection parses the first key of the re-run counts, with a second
executor call, applying no range filter to it. -/
lemma select_from_tie (n : Int) (ci : List (Nat × Nat)) (M : Nat)
    (k : String) (v : Nat) (rest : List (String × Nat)) (m : Nat)
    (hmax : ((valid_counts_of n ci).map (·.2)).max? = some M)
    (htie : 1 < ((valid_counts_of n ci).filter (fun q => q.2 = M)).length)
    (hk : parseBin2 k = some m) :
    select_from n ci ((k, v) :: rest) = .ok ⟨m, 2⟩ := by
  have henum : ((valid_counts_of n ci).map (·.2)).enum
      = List.enumFrom 0 ((valid_counts_of n ci).map (·.2)) := rfl
  have hlen :
      (((List.enumFrom 0 ((valid_counts_of n ci).map (·.2))).filter
          (fun q => q.2 = M)).map Prod.fst).length
        = ((valid_counts_of n ci).filter (fun q => q.2 = M)).length :=
    max_indices_count M (valid_counts_of n ci) 0
  simp only [select_from, hmax, henum]
  rw [if_pos (by rw [hlen]; exact htie)]
  simp only [List.head?_cons, hk]

/-- When the valid subset is empty the selection fails with
`noValidOutcomes` (the empty-`max` error). -/
lemma select_from_empty (n : Int) (ci : List (Nat × Nat)) (rr : List (String × Nat))
    (h : valid_counts_of n ci = []) :
    select_from n ci rr = .error .noValidOutcomes := by
  simp only [select_from, h]
  rfl

/-- Every successful selection reports at most two executor calls. -/
lemma select_from_execCalls (n : Int) (ci : List (Nat × Nat))
    (rr : List (String × Nat)) (r : SelectionOutcome)
    (h : select_from n ci rr = .ok r) : r.execCalls ≤ 2 := by
  simp only [select_from] at h
  split at h
  · cases h
  · split at h
    · split at h
      · cases h
      · split at h
        · cases h
        · cases Except.ok.inj h
          exact Nat.le_refl 2
    · cases Except.ok.inj h
      exact Nat.le_succ 1

/-- For a positive outcome count and well-formed main counts, `run_qrng`
reduces to the selection over the parsed integer counts. -/
lemma run_qrng_eq_select (n : Int) (exec : Nat → List (String × Nat))
    (ci : List (Nat × Nat)) (hn : 1 ≤ n)
    (hci : counts_int_of (exec 0) = some ci) :
    run_qrng n exec = select_from n ci (exec 1) := by
  rw [run_qrng, build_qrng, if_neg (by omega : ¬ n ≤ 0), hci]

/-- C3: when exactly one in-range outcome achieves the maximum occurrence
count, `run_qrng` returns it directly with a single executor call (no re-run);
for counts `{00: 40, 01: 10, 10: 10, 11: 10}` and `numOutcomes = 4` it
returns 0. -/
theorem run_qrng_unique_max_direct :
    (∀ (n : Int) (exec : Nat → List (String × Nat)) (ci : List (Nat × Nat))
        (M : Nat) (p : Nat × Nat),
        1 ≤ n → counts_int_of (exec 0) = some ci →
        ((valid_counts_of n ci).map (·.2)).max? = some M →
        (valid_counts_of n ci).filter (fun q => q.2 = M) = [p] →
        run_qrng n exec = .ok ⟨p.1, 1⟩)
    ∧ run_qrng 4 (mkExec [("00", 40), ("01", 10), ("10", 10), ("11", 10)] [])
        = .ok ⟨0, 1⟩ := by
  constructor
  · intro n exec ci M p hn hci hmax hfilter
    rw [run_qrng_eq_select n exec ci hn hci]
    exact select_from_unique n ci (exec 1) M p hmax hfilter
  · decide

/-- Witness for C3 at the spec's example counts: the hypotheses hold
concretely and the result is outcome 0 with one executor call. -/
theorem run_qrng_unique_max_direct_witness :
    ((1 : ℤ) ≤ 4
      ∧ counts_int_of (mkExec [("00", 40), ("01", 10), ("10", 10), ("11", 10)] [] 0)
          = some [(0, 40), (1, 10), (2, 10), (3, 10)]
      ∧ ((valid_counts_of 4 [(0, 40), (1, 10), (2, 10), (3, 10)]).map (·.2)).max? = some 40
      ∧ (valid_counts_of 4 [(0, 40), (1, 10), (2, 10), (3, 10)]).filter
          (fun q => q.2 = 40) = [(0, 40)])
    ∧ run_qrng 4 (mkExec [("00", 40), ("01", 10), ("10", 10), ("11", 10)] [])
        = .ok ⟨(0, 40).1, 1⟩ :=
  ⟨⟨by norm_num, by decide, by decide, by decide⟩,
    run_qrng_unique_max_direct.1 4 _ [(0, 40), (1, 10), (2, 10), (3, 10)] 40 (0, 40)
      (by norm_num) (by decide) (by decide) (by decide)⟩

/-- C2: when more than one in-range outcome ties for the maximum occurrence
count, `run_qrng` performs exactly one additional single-shot execution
(two executor calls total, and every successful call uses at most two) and
returns the parsed first key of that re-run without re-applying the
`< numOutcomes` filter — concretely, a tie at `numOutcomes = 4` can return 5,
outside the requested range. -/
theorem run_qrng_tie_single_rerun_unfiltered :
    (∀ (n : Int) (exec : Nat → List (String × Nat)) (ci : List (Nat × Nat))
        (M : Nat) (k : String) (v : Nat) (rest : List (String × Nat)) (m : Nat),
        1 ≤ n → counts_int_of (exec 0) = some ci →
        ((valid_counts_of n ci).map (·.2)).max? = some M →
        1 < ((valid_counts_of n ci).filter (fun q => q.2 = M)).length →
        exec 1 = (k, v) :: rest → parseBin2 k = some m →
        run_qrng n exec = .ok ⟨m, 2⟩)
    ∧ (∀ (n : Int) (exec : Nat → List (String × Nat)) (r : SelectionOutcome),
        run_qrng n exec = .ok r → r.execCalls ≤ 2)
    ∧ (run_qrng 4 (mkExec [("00", 10), ("01", 10)] [("101", 1)]) = .ok ⟨5, 2⟩
        ∧ ¬ ((5 : ℤ) < 4)) := by
  refine ⟨?_, ?_, by decide, by norm_num⟩
  · intro n exec ci M k v rest m hn hci hmax htie hrr hk
    rw [run_qrng_eq_select n exec ci hn hci, hrr]
    exact select_from_tie n ci M k v rest m hmax htie hk
  · intro n exec r h
    rw [run_qrng] at h
    cases hb : build_qrng n with
    | error e => rw [hb] at h; cases h
    | ok q =>
      rw [hb] at h
      cases hc : counts_int_of (exec 0) with
      | none => rw [hc] at h; cases h
      | some ci =>
        rw [hc] at h
        exact select_from_execCalls n ci (exec 1) r h

/-- Witness for C2: at the tied counts `{00: 10, 01: 10}` with
`numOutcomes = 4` and re-run counts `{101: 1}`, the hypotheses hold and the
result is the out-of-range value 5 after two executor calls. -/
theorem run_qrng_tie_single_rerun_unfiltered_witness :
    ((1 : ℤ) ≤ 4
      ∧ counts_int_of (mkExec [("00", 10), ("01", 10)] [("101", 1)] 0)
          = some [(0, 10), (1, 10)]
      ∧ ((valid_counts_of 4 [(0, 10), (1, 10)]).map (·.2)).max? = some 10
      ∧ 1 < ((valid_counts_of 4 [(0, 10), (1, 10)]).filter (fun q => q.2 = 10)).length
      ∧ mkExec [("00", 10), ("01", 10)] [("101", 1)] 1 = ("101", 1) :: []
      ∧ parseBin2 "101" = some 5)
    ∧ run_qrng 4 (mkExec [("00", 10), ("01", 10)] [("101", 1)]) = .ok ⟨5, 2⟩ :=
  ⟨⟨by norm_num, by decide, by decide, by decide, by decide, by decide⟩,
    run_qrng_tie_single_rerun_unfiltered.1 4 _ [(0, 10), (1, 10)] 10 "101" 1 [] 5
      (by norm_num) (by decide) (by decide) (by decide) (by decide) (by decide)⟩

/-- C6: when every measured outcome falls outside `[0, numOutcomes-1]` the
call fails with the `NoValidOutcomes` error kind (the error raised at the
maximum computation over the empty valid-occurrence list), surfaced to the
caller; concretely at `numOutcomes = 3` with only `11` measured. -/
theorem run_qrng_all_out_of_range_fails :
    (∀ (n : Int) (exec : Nat → List (String × Nat)) (ci : List (Nat × Nat)),
        1 ≤ n → counts_int_of (exec 0) = some ci →
        (∀ p ∈ ci, ¬ ((p.1 : Int) < n)) →
        run_qrng n exec = .error .noValidOutcomes)
    ∧ run_qrng 3 (mkExec [("11", 7)] []) = .error .noValidOutcomes := by
  constructor
  · intro n exec ci hn hci hout
    rw [run_qrng_eq_select n exec ci hn hci]
    apply select_from_empty
    rw [valid_counts_of]
    rw [List.filter_eq_nil_iff]
    intro p hp
    simpa using hout p hp
  · decide

/-- Witness for C6 at `numOutcomes = 3` with only the out-of-range bit
pattern `11` measured. -/
theorem run_qrng_all_out_of_range_fails_witness :
    ((1 : ℤ) ≤ 3
      ∧ counts_int_of (mkExec [("11", 7)] [] 0) = some [(3, 7)]
      ∧ ∀ p ∈ [((3 : ℕ), (7 : ℕ))], ¬ ((p.1 : Int) < 3))
    ∧ run_qrng 3 (mkExec [("11", 7)] []) = .error .noValidOutcomes :=
  ⟨⟨by norm_num, by decide, by decide⟩,
    run_qrng_all_out_of_range_fails.1 3 _ [(3, 7)]
      (by norm_num) (by decide) (by decide)⟩

/-- C10: on the tie-break path the returned value is determined solely by
the first key of the re-run counts mapping, parsed as a big-endian binary
integer: any keys after the first are ignored — replacing them changes
nothing — and concretely a re-run mapping `{110: 1, 00: 5}` yields 6. -/
theorem tie_rerun_first_key_only :
    (∀ (n : Int) (cb : List (String × Nat)) (k : String) (v : Nat)
        (rest rest' : List (String × Nat)),
        run_qrng n (mkExec cb ((k, v) :: rest))
          = run_qrng n (mkExec cb ((k, v) :: rest')))
    ∧ run_qrng 4 (mkExec [("00", 10), ("01", 10)] [("110", 1), ("00", 5)])
        = .ok ⟨6, 2⟩ := by
  constructor
  · intro n cb k v rest rest'
    rw [run_qrng, run_qrng]
    cases hb : build_qrng n with
    | error e => rfl
    | ok q =>
      have h0 : ∀ rr, mkExec cb rr 0 = cb := fun rr => rfl
      rw [h0, h0]
      cases hc : counts_int_of cb with
      | none => rfl
      | some ci =>
        have h1 : ∀ rr, mkExec cb rr 1 = rr := fun rr => rfl
        rw [h1, h1]
        simp only [select_from, List.head?_cons]
  · decide

lemma dictInsert_fresh (k v : Nat) :
    ∀ d : List (Nat × Nat), k ∉ d.map (·.1) → dictInsert k v d = d ++ [(k, v)] := by
  intro d
  induction d with
  | nil => intro _; rfl
  | cons p rest ih =>
    intro h
    simp only [List.map_cons, List.mem_cons, not_or] at h
    rw [dictInsert, if_neg (fun hc => h.1 hc.symm), ih h.2]
    rfl

lemma parse_keys_length : ∀ (cb : List (String × Nat)) (ks : List Nat),
    parse_keys cb = some ks → ks.length = cb.length := by
  intro cb
  induction cb with
  | nil =>
    intro ks h
    cases h
    rfl
  | cons p rest ih =>
    intro ks h
    rw [parse_keys] at h
    cases hp : parseBin2 p.1 with
    | none => rw [hp] at h; cases h
    | some k =>
      cases hr : parse_keys rest with
      | none => rw [hp, hr] at h; cases h
      | some ks' =>
        rw [hp, hr] at h
        cases h
        simp [ih ks' hr]

lemma zip_map_snd : ∀ (ks vs : List Nat), ks.length = vs.length →
    (ks.zip vs).map (·.2) = vs := by
  intro ks
  induction ks with
  | nil =>
    intro vs h
    cases vs with
    | nil => rfl
    | cons a t => cases h
  | cons k kt ih =>
    intro vs h
    cases vs with
    | nil => cases h
    | cons v vt =>
      simp only [List.zip_cons_cons, List.map_cons]
      rw [ih vt (by simpa using h)]

/-- With pairwise-distinct parsed keys, the dictionary built by the
comprehension is exactly the zip of the parsed keys with the occurrence
values: no entry is merged away. -/
lemma counts_fold_nodup :
    ∀ (cb : List (String × Nat)) (d : List (Nat × Nat)) (ks : List Nat),
      parse_keys cb = some ks → (d.map (·.1) ++ ks).Nodup →
      counts_int_fold d cb = some (d ++ ks.zip (cb.map (·.2))) := by
  intro cb
  induction cb with
  | nil =>
    intro d ks h _
    cases h
    simp [counts_int_fold]
  | cons p rest ih =>
    intro d ks h hnd
    rw [parse_keys] at h
    cases hp : parseBin2 p.1 with
    | none => rw [hp] at h; cases h
    | some k =>
      cases hr : parse_keys rest with
      | none => rw [hp, hr] at h; cases h
      | some ks' =>
        rw [hp, hr] at h
        cases h
        have hkd : k ∉ d.map (·.1) := by
          have := hnd
          rw [List.nodup_append] at this
          exact fun hk => this.2.2 hk (List.mem_cons_self k ks')
        have hnd' : ((d ++ [(k, p.2)]).map (·.1) ++ ks').Nodup := by
          have hl : (d ++ [(k, p.2)]).map (·.1) ++ ks' = d.map (·.1) ++ k :: ks' := by
            simp
          rw [hl]
          exact hnd
        rw [counts_int_fold, hp]
        show counts_int_fold (dictInsert k p.2 d) rest = _
        rw [dictInsert_fresh k p.2 d hkd, ih (d ++ [(k, p.2)]) ks' hr hnd']
        simp [List.zip_cons_cons, List.append_assoc]

/-- With pairwise-distinct parsed keys, the values of `counts_int` are
exactly the occurrence values of the binary counts, in order. -/
lemma counts_int_values (cb : List (String × Nat)) (ks : List Nat)
    (hk : parse_keys cb = some ks) (hnd : ks.Nodup) :
    counts_int_of cb = some (ks.zip (cb.map (·.2))) := by
  have h := counts_fold_nodup cb [] ks hk (by simpa using hnd)
  simpa [counts_int_of] using h

lemma std_norm_of_eq_spec_form (l : List Nat) :
    std_norm_of l = spec_normalized_spread l := by
  have hpv : ∀ m : List ℚ, popVariance m
      = ((m.map (fun x => (x - mean m) ^ 2)).sum) / (m.length : ℚ) := by
    intro m
    rw [popVariance, mean, List.length_map]
  simp only [std_norm_of, spec_normalized_spread, population_stddev, hpv]
  push_cast
  rfl

/-- C5: the `normalizedSpread` that `run_qrng` computes equals the population
standard deviation of the occurrence counts of all observed outcomes
(out-of-range ones included — no `numOutcomes` filter is involved) divided by
their mean, rounded to 9 decimal places, as the spec formulates it. -/
theorem run_std_norm_matches_spec :
    ∀ (cb : List (String × Nat)) (ks : List Nat),
      parse_keys cb = some ks → ks.Nodup →
      run_std_norm cb = some (spec_normalized_spread (cb.map (·.2))) := by
  intro cb ks hk hnd
  rw [run_std_norm, counts_int_values cb ks hk hnd]
  have hlen : ks.length = (cb.map (·.2)).length := by
    rw [List.length_map]
    exact parse_keys_length cb ks hk
  rw [Option.map_some', zip_map_snd ks (cb.map (·.2)) hlen, std_norm_of_eq_spec_form]

/-- Witness for C5 at the uniform counts `{00: 25, 01: 25, 10: 25, 11: 25}`. -/
theorem run_std_norm_matches_spec_witness :
    (parse_keys [("00", 25), ("01", 25), ("10", 25), ("11", 25)] = some [0, 1, 2, 3]
      ∧ ([0, 1, 2, 3] : List Nat).Nodup)
    ∧ run_std_norm [("00", 25), ("01", 25), ("10", 25), ("11", 25)]
        = some (spec_normalized_spread
            ([("00", 25), ("01", 25), ("10", 25), ("11", 25)].map (·.2))) :=
  ⟨⟨by decide, by decide⟩,
    run_std_norm_matches_spec [("00", 25), ("01", 25), ("10", 25), ("11", 25)]
      [0, 1, 2, 3] (by decide) (by decide)⟩

lemma sum_map_scale (c : ℚ) : ∀ l : List ℚ, (l.map (fun x => c * x)).sum = c * l.sum := by
  intro l
  induction l with
  | nil => simp
  | cons a t ih => simp [ih, mul_add]

lemma mean_scale (c : ℚ) (l : List ℚ) : mean (l.map (fun x => c * x)) = c * mean l := by
  rw [mean, mean, List.length_map, sum_map_scale, mul_div_assoc]

lemma popVariance_scale (c : ℚ) (l : List ℚ) :
    popVariance (l.map (fun x => c * x)) = c ^ 2 * popVariance l := by
  rw [popVariance, popVariance, mean_scale, List.map_map]
  have hfun : ((fun x => (x - c * mean l) ^ 2) ∘ fun x => c * x)
      = fun x => c ^ 2 * ((x - mean l) ^ 2) := by
    funext x
    simp only [Function.comp]
    ring
  rw [hfun,
    show (fun x => c ^ 2 * ((x - mean l) ^ 2))
        = ((fun y => c ^ 2 * y) ∘ fun x => (x - mean l) ^ 2) from rfl,
    ← List.map_map, mean_scale]

/-- Scaling every occurrence count by a positive natural factor leaves the
normalized standard deviation of runner.py lines 102-104 unchanged. -/
lemma std_norm_of_scale (k : Nat) (hk : 0 < k) (l : List Nat) :
    std_norm_of (l.map (fun v => k * v)) = std_norm_of l := by
  have hcast : (l.map (fun v => k * v)).map (fun a : ℕ => (a : ℚ))
      = (l.map (fun a : ℕ => (a : ℚ))).map (fun x => (k : ℚ) * x) := by
    simp only [List.map_map]
    congr 1
    funext v
    simp [Function.comp, Nat.cast_mul]
  simp only [std_norm_of, hcast, popVariance_scale, mean_scale]
  have hk0 : (0 : ℝ) < ((k : ℚ) : ℝ) := by
    have : (0 : ℚ) < (k : ℚ) := by exact_mod_cast hk
    exact_mod_cast this
  congr 1
  rw [Rat.cast_mul, Rat.cast_mul, Rat.cast_pow]
  rw [Real.sqrt_mul (by positivity) _]
  rw [Real.sqrt_sq hk0.le]
  exact mul_div_mul_left _ _ hk0.ne'

lemma dictInsert_scale (c k v : Nat) :
    ∀ d : List (Nat × Nat),
      dictInsert k (c * v) (d.map (fun q => (q.1, c * q.2)))
        = (dictInsert k v d).map (fun q => (q.1, c * q.2)) := by
  intro d
  induction d with
  | nil => rfl
  | cons p rest ih =>
    by_cases h : p.1 = k
    · simp [dictInsert, h]
    · simp [dictInsert, h, ih]

lemma counts_fold_scale (c : Nat) :
    ∀ (cb : List (String × Nat)) (d : List (Nat × Nat)),
      counts_int_fold (d.map (fun q => (q.1, c * q.2))) (cb.map (fun p => (p.1, c * p.2)))
        = (counts_int_fold d cb).map (List.map (fun q => (q.1, c * q.2))) := by
  intro cb
  induction cb with
  | nil => intro d; rfl
  | cons p rest ih =>
    intro d
    simp only [List.map_cons, counts_int_fold]
    cases hp : parseBin2 p.1 with
    | none => rfl
    | some k =>
      show counts_int_fold (dictInsert k (c * p.2) (d.map (fun q => (q.1, c * q.2))))
          (rest.map (fun q => (q.1, c * q.2))) = _
      rw [dictInsert_scale c k p.2 d, ih (dictInsert k p.2 d)]

/-- C9: scaling every occurrence count of a non-empty counts mapping by the
same positive factor leaves the computed `normalizedSpread` unchanged. -/
theorem run_std_norm_scale_invariant :
    ∀ (cb : List (String × Nat)) (k : Nat), cb ≠ [] → 0 < k →
      run_std_norm (cb.map (fun p => (p.1, k * p.2))) = run_std_norm cb := by
  intro cb k _ hk
  rw [run_std_norm, run_std_norm, counts_int_of, counts_int_of]
  have h := counts_fold_scale k cb []
  simp only [List.map_nil] at h
  rw [h]
  cases hres : counts_int_fold [] cb with
  | none => rfl
  | some ci =>
    simp only [Option.map_some']
    congr 1
    have hvals : (ci.map (fun q => (q.1, k * q.2))).map (·.2)
        = (ci.map (·.2)).map (fun v => k * v) := by
      simp [List.map_map]
    rw [hvals, std_norm_of_scale k hk]

/-- Witness for C9: scaling the counts `{0: 1, 1: 2}` by 3. -/
theorem run_std_norm_scale_invariant_witness :
    (([("0", 1), ("1", 2)] : List (String × Nat)) ≠ [] ∧ 0 < 3)
    ∧ run_std_norm ([("0", 1), ("1", 2)].map (fun p => (p.1, 3 * p.2)))
        = run_std_norm [("0", 1), ("1", 2)] :=
  ⟨⟨by decide, by decide⟩,
    run_std_norm_scale_invariant [("0", 1), ("1", 2)] 3 (by decide) (by decide)⟩

/-- C8 counterexample: with every occurrence count zero (mean zero) at
`numOutcomes = 2`, the call does not fail with any error — the selection
still returns a number (via the tie path) and the spread computation
completes, yielding the rounded division-by-zero value instead of a
`DegenerateDistribution` failure (no such error exists in the code). -/
theorem zero_mean_no_degenerate_failure :
    mean (([(0 : Nat), 0].map (fun a : ℕ => (a : ℚ)))) = 0
    ∧ run_qrng 2 (mkExec [("00", 0), ("01", 0)] [("0", 1)]) = .ok ⟨0, 2⟩
    ∧ run_std_norm [("00", 0), ("01", 0)] = some (round9 0) := by
  refine ⟨by norm_num [mean], by decide, ?_⟩
  have h : counts_int_of [("00", 0), ("01", 0)] = some [(0, 0), (1, 0)] := by decide
  rw [run_std_norm, h, Option.map_some']
  congr 1
  simp only [std_norm_of]
  have hmean : mean ([((0 : Nat), (0 : Nat)), (1, 0)].map (·.2) |>.map (fun a : ℕ => (a : ℚ))) = 0 := by
    norm_num [mean]
  rw [hmean]
  norm_num

/-- C8 amended: when the mean of the occurrence counts is zero, the spread
computation completes without raising anything: the division by the zero
mean produces the (rounded) undefined value — NaN in the float code, `0`
under the exact model's division-by-zero convention. -/
theorem zero_mean_spread_completes :
    ∀ (cb : List (String × Nat)) (ci : List (Nat × Nat)),
      counts_int_of cb = some ci →
      mean ((ci.map (·.2)).map (fun a : ℕ => (a : ℚ))) = 0 →
      run_std_norm cb = some (round9 0) := by
  intro cb ci hci hmean
  rw [run_std_norm, hci, Option.map_some']
  congr 1
  simp only [std_norm_of]
  rw [hmean]
  norm_num

/-- Witness for C8's amended statement at the all-zero counts
`{00: 0, 01: 0}`. -/
theorem zero_mean_spread_completes_witness :
    (counts_int_of [("00", 0), ("01", 0)] = some [(0, 0), (1, 0)]
      ∧ mean ((([((0 : Nat), (0 : Nat)), (1, 0)]).map (·.2)).map (fun a : ℕ => (a : ℚ))) = 0)
    ∧ run_std_norm [("00", 0), ("01", 0)] = some (round9 0) :=
  ⟨⟨by decide, by norm_num [mean]⟩,
    zero_mean_spread_completes [("00", 0), ("01", 0)] [(0, 0), (1, 0)]
      (by decide) (by norm_num [mean])⟩

end Qrng
